import Mathlib

/-!
Verification development for the StackSlayer repository (two Substance
Painter plugin modules, `dh_sp_tools.py` and `stack_slayer.py`).  The
definitions below are a shallow embedding of the plugin logic: pure
decision logic is translated to Lean functions, the host application
(layer stack, texture sets, file system, Qt widget state) is made an
explicit argument, and every host mutation the code would request is
returned as data instead of performed.
-/

-- ==========================================================================
-- ConfigManager (dh_sp_tools.py, lines 26-81)
-- ==========================================================================

/-- Configuration object: a JSON object that may carry a "hotkeys" mapping
from action name to key-combination string.  `hotkeys = none` models a
loaded JSON object without a "hotkeys" key (`config.get("hotkeys", {})`
then yields the empty mapping). -/
structure Config where
  hotkeys : Option (List (String × String))
deriving DecidableEq

/-- The built-in default table `ConfigManager.DEFAULT_CONFIG`. -/
def DEFAULT_CONFIG : Config :=
  ⟨some
    [("cycle_texture_set_up", "Ctrl+Shift+W"),
     ("cycle_texture_set_down", "Ctrl+Shift+S"),
     ("cycle_layer_up", "Ctrl+W"),
     ("cycle_layer_down", "Ctrl+S"),
     ("cycle_effect_up", "Ctrl+Shift+Q"),
     ("cycle_effect_down", "Ctrl+Shift+A"),
     ("toggle_mask_content", "`")]⟩

/-- The action identifiers the plugin recognizes (the keys of
`DEFAULT_CONFIG["hotkeys"]`, also the keys of `action_labels` in the
settings dialog). -/
def recognizedActions : List String :=
  ["cycle_texture_set_up", "cycle_texture_set_down",
   "cycle_layer_up", "cycle_layer_down",
   "cycle_effect_up", "cycle_effect_down",
   "toggle_mask_content"]

/-- State of the persisted config file as `load_config` observes it:
absent, present but failing to parse (`json.load` raises), or present
and readable with the given contents. -/
inductive FileState
  | absent
  | unreadable
  | readable (c : Config)
deriving DecidableEq

/-- Embedding of `ConfigManager.load_config`.  Returns the config the
method returns together with a flag recording whether a write of the
default table to disk was requested (`save_config(DEFAULT_CONFIG)`).
The code writes the defaults only in the file-absent branch; a read
error falls through to `return self.DEFAULT_CONFIG.copy()` with no
write. -/
def load_config : FileState → Config × Bool
  | .readable c => (c, false)
  | .unreadable => (DEFAULT_CONFIG, false)
  | .absent => (DEFAULT_CONFIG, true)

/-- Embedding of `ConfigManager.get_hotkey`:
`self.config.get("hotkeys", {}).get(action_name, "")`. -/
def get_hotkey (c : Config) (action_name : String) : String :=
  match c.hotkeys with
  | none => ""
  | some m => (m.lookup action_name).getD ""

-- ==========================================================================
-- ViewportOverlay (dh_sp_tools.py, lines 195-268)
-- ==========================================================================

/-- Observable state of the overlay widget: displayed text, opacity of the
graphics effect, visibility, the single-shot auto-hide timer (`some d` =
armed with duration `d` ms), and whether the fade animation is running. -/
structure OverlayState where
  text : String
  opacity : ℚ
  visible : Bool
  hideTimer : Option Nat
  fading : Bool
deriving DecidableEq

/-- Embedding of `ViewportOverlay.show_message`, one record update per
statement: `setText`, `opacity_effect.setOpacity(1.0)`, `show`,
`hide_timer.stop()`, `fade_animation.stop()`, `hide_timer.start(duration)`.
(`adjustSize`, positioning and `raise_` do not touch the modelled state.) -/
def show_message (st : OverlayState) (text : String) (duration : Nat) : OverlayState :=
  let st1 := { st with text := text }
  let st2 := { st1 with opacity := 1 }
  let st3 := { st2 with visible := true }
  let st4 := { st3 with hideTimer := none }
  let st5 := { st4 with fading := false }
  { st5 with hideTimer := some duration }

/-- Embedding of the auto-hide timer firing: `_start_fade_out` starts the
fade animation (the single-shot timer is now spent). -/
def hideTimerExpire (st : OverlayState) : OverlayState :=
  { st with hideTimer := none, fading := true }

/-- Embedding of the fade animation reaching its end: the `finished`
signal is connected to `hide`. -/
def fadeFinished (st : OverlayState) : OverlayState :=
  { st with fading := false, visible := false }

-- ==========================================================================
-- Shared wrap-around index step
-- ==========================================================================

/-- The index step `(i + direction) % n` shared by `TextureSetCycler._cycle`
(line 322), `LayerCycler._cycle_layer` (line 416) and
`EffectCycler._cycle_effect` (line 549).  `%` is Euclidean mod, which for
a positive modulus agrees with Python `%`. -/
def cycleStep (n d i : Int) : Int := (i + d) % n

-- ==========================================================================
-- TextureSetCycler (dh_sp_tools.py, lines 275-344)
-- ==========================================================================

/-- Host state the texture-set cycler can observe or address: the list of
texture-set names and which stack the host currently reports active.
`_cycle` never reads `activeIdx`; it is included to state that
independence. -/
structure TSHost where
  sets : List String
  activeIdx : Option Nat
deriving DecidableEq

/-- Overlay message emitted by `TextureSetCycler._cycle`. -/
inductive TSMsg
  | noTextureSets
  | cycled (name : String) (pos total : Nat) (up : Bool)
deriving DecidableEq

/-- Result of one `_cycle` call: the new `self.current_index`, the index of
the set whose stack is requested active (`set_active_stack`), and the
overlay message. -/
structure TSCycleResult where
  cursor : Int
  request : Option Nat
  msg : TSMsg
deriving DecidableEq

/-- Embedding of `TextureSetCycler._cycle`.  On an empty collection it
reports and returns before touching `current_index`; otherwise it updates
the cursor with the wrap-around step, requests that set's stack active and
reports name and ordinal position. -/
def textureSetCycle (host : TSHost) (cursor : Int) (direction : Int) : TSCycleResult :=
  if host.sets.isEmpty then
    { cursor := cursor, request := none, msg := .noTextureSets }
  else
    let i := cycleStep (host.sets.length : Int) direction cursor
    { cursor := i
      request := some i.toNat
      msg := .cycled (host.sets.getD i.toNat "") (i.toNat + 1) host.sets.length
        (decide (direction < 0)) }

-- ==========================================================================
-- LayerCycler (dh_sp_tools.py, lines 351-447)
-- ==========================================================================

/-- Result of one `_cycle_layer` call after the layer list has been
fetched: either the "No Layers" report (no selection change) or a request
to select the given node (`set_selected_nodes([target_layer])`). -/
inductive LayerCycleResult
  | noLayers
  | select (target : Nat)
deriving DecidableEq

/-- Embedding of `LayerCycler._cycle_layer` from the point where
`all_layers` has been fetched (nodes are identified by `Nat` handles;
`selected` is `get_selected_nodes`).  With nothing selected the code
selects `all_layers[0]` (direction > 0) or `all_layers[-1]` directly;
with a selected node present in the list it steps `(index + direction) %
len`; with a selected node absent from the list (`ValueError`) it selects
`all_layers[0]`. -/
def cycleLayer (allLayers : List Nat) (selected : List Nat) (direction : Int) :
    LayerCycleResult :=
  match allLayers with
  | [] => .noLayers
  | a :: rest =>
    match selected with
    | [] => .select (if direction > 0 then a else (a :: rest).getLast (by simp))
    | c :: _ =>
      match (a :: rest).findIdx? (· == c) with
      | some i =>
        .select ((a :: rest).getD
          (cycleStep ((a :: rest).length : Int) direction (i : Int)).toNat a)
      | none => .select a

/-- Modelled from the spec's words (claim C1 / spec section 4.1), for
comparison with `cycleLayer`: the current index `i` is the position of the
selected node when present, otherwise `0` for d > 0 and `N - 1` for
d < 0, and the requested selection is always `items[(i + d) mod N]`. -/
def cycleLayerClaimed (allLayers : List Nat) (selected : List Nat) (direction : Int) :
    LayerCycleResult :=
  match allLayers with
  | [] => .noLayers
  | a :: rest =>
    let L := a :: rest
    let n : Int := (L.length : Int)
    let i : Int :=
      match selected with
      | [] => if direction > 0 then 0 else n - 1
      | c :: _ =>
        match L.findIdx? (· == c) with
        | some j => (j : Int)
        | none => if direction > 0 then 0 else n - 1
    .select (L.getD (cycleStep n direction i).toNat a)

-- ==========================================================================
-- Effect-target determination (stack_slayer.py: the shared head of
-- _add_hsl_filter, _add_levels_filter, _add_blur_filter, _add_generator,
-- _add_fill_effect, _add_paint_effect, _add_anchor_point)
-- ==========================================================================

/-- The `target_stack` argument: `None` (auto-detect), `"content"` or
`"mask"`. -/
inductive TargetOverride
  | auto
  | content
  | mask
deriving DecidableEq

/-- What the effect-insertion helpers can observe about the current
selection: the selected node handle, whether it has a `has_mask`
attribute and what `has_mask()` returns, its parent (if any), whether the
parent has a `mask_effects` attribute and, if so, the members of
`parent.mask_effects()`. -/
structure EffectContext where
  selected : Nat
  selectedSupportsMask : Bool
  selectedHasMask : Bool
  parent : Option Nat
  parentHasMaskEffects : Bool
  parentMaskEffects : List Nat
deriving DecidableEq

/-- Outcome of the target-determination head of each insertion helper:
either the precondition failure `"Layer needs a mask first"` (the method
returns with no mutation) or an insertion into the mask or content
sub-stack of `targetLayer`. -/
inductive EffectAction
  | precondFail
  | insert (inMask : Bool) (targetLayer : Nat)
deriving DecidableEq

/-- Whether an outcome mutates the layer stack. -/
def EffectAction.mutates : EffectAction → Bool
  | .precondFail => false
  | .insert _ _ => true

/-- Embedding of the target determination shared by the effect-insertion
helpers (e.g. `_add_hsl_filter` lines 384-401, `_add_generator` lines
541-558): an explicit `"mask"` override first checks
`hasattr(selected_node, 'has_mask') and selected_node.has_mask()`;
`"content"` targets the selected node's content stack; the auto branch
classifies as mask exactly when the parent exists, has `mask_effects`,
and the selected node is a member of it, in which case the parent becomes
the insertion target. -/
def determineEffectTarget (ov : TargetOverride) (ctx : EffectContext) : EffectAction :=
  match ov with
  | .mask =>
    if !ctx.selectedSupportsMask || !ctx.selectedHasMask then .precondFail
    else .insert true ctx.selected
  | .content => .insert false ctx.selected
  | .auto =>
    match ctx.parent with
    | some p =>
      if ctx.parentHasMaskEffects then
        if ctx.selected ∈ ctx.parentMaskEffects then .insert true p
        else .insert false ctx.selected
      else .insert false ctx.selected
    | none => .insert false ctx.selected

-- ==========================================================================
-- StackSlayer._save_incremental (stack_slayer.py, lines 842-901)
-- ==========================================================================

/-- Outcome of matching the trailing `_v` + three ASCII digits of a stem:
the regex `(.+)_v(\d{2,3})$` (IGNORECASE) with the digit group taking
three characters.  Working on the reversed stem mirrors the end-anchored
match. -/
def try3 (stem : List Char) : Option (List Char × List Char) :=
  match stem.reverse with
  | a :: b :: c :: v :: u :: base' =>
    if a.isDigit && b.isDigit && c.isDigit && u == '_' && (v == 'v' || v == 'V')
        && !base'.isEmpty then
      some (base'.reverse, [c, b, a])
    else none
  | _ => none

/-- Outcome of matching the trailing `_v` + two ASCII digits of a stem
(the two-digit alternative of `(.+)_v(\d{2,3})$`). -/
def try2 (stem : List Char) : Option (List Char × List Char) :=
  match stem.reverse with
  | a :: b :: v :: u :: base' =>
    if a.isDigit && b.isDigit && u == '_' && (v == 'v' || v == 'V')
        && !base'.isEmpty then
      some (base'.reverse, [b, a])
    else none
  | _ => none

/-- Embedding of `version_pattern.match(current_name)` for the pattern
`(.+)_v(\d{2,3})$` with `re.IGNORECASE`: returns `(group(1), group(2))`.
The greedy `(.+)` prefers the longer base, i.e. the two-digit split; the
two splits are mutually exclusive anyway because the character three from
the end cannot be both a digit and `v`/`V`. -/
def matchVersion (stem : List Char) : Option (List Char × List Char) :=
  match try2 stem with
  | some r => some r
  | none => try3 stem

/-- Numeric value of a digit string, as `int(group(2))`. -/
def parseDigits (ds : List Char) : Nat :=
  ds.foldl (fun n c => 10 * n + (c.toNat - '0'.toNat)) 0

/-- Embedding of Python `str.zfill`: pad on the left with `'0'` to width
`w`; a longer string is returned unchanged. -/
def zfill (s : List Char) (w : Nat) : List Char :=
  List.replicate (w - s.length) '0' ++ s

/-- Decimal digits of a natural number, as `str(next_version)`. -/
def natDigits (n : Nat) : List Char := Nat.toDigits 10 n

/-- The incremented file name built at lines 879-883:
`f"{base_name}_v{str(version + 1).zfill(digit_count)}{ext}"`. -/
def incrementedName (base ds ext : List Char) : List Char :=
  base ++ ['_', 'v'] ++ zfill (natDigits (parseDigits ds + 1)) ds.length ++ ext

/-- Embedding of `StackSlayer._save_incremental` from the point where the
project file's stem and extension are known; `existing` is the set of
file names already present in the project directory.  Returns
`some name` exactly when `project.save_as` is called, with the target
file name. -/
def saveIncremental (stem ext : List Char) (existing : List (List Char)) :
    Option (List Char) :=
  match matchVersion stem with
  | none => none
  | some (base, ds) =>
    let newName := incrementedName base ds ext
    if newName ∈ existing then none else some newName

/-- The decomposition described by claim C10: the stem is a non-empty base
followed by `_v` (either case) and a 2- or 3-digit version group. -/
def versionStemDecomp (stem base : List Char) (sep : Char) (ds : List Char) : Prop :=
  stem = base ++ ['_', sep] ++ ds ∧ (sep = 'v' ∨ sep = 'V') ∧ base ≠ [] ∧
    (∀ c ∈ ds, c.isDigit) ∧ (ds.length = 2 ∨ ds.length = 3)

-- ==========================================================================
-- Helper lemmas
-- ==========================================================================

lemma cycleStep_iterate (N : Nat) (i : Int) (h0 : 0 ≤ i) (h1 : i < (N : Int)) :
    ∀ k : Nat, (cycleStep (N : Int) 1)^[k] i = (i + (k : Int)) % (N : Int) := by
  intro k
  induction k with
  | zero => simpa using (Int.emod_eq_of_lt h0 h1).symm
  | succ k ih =>
    rw [Function.iterate_succ_apply', ih]
    show ((i + (k : Int)) % (N : Int) + 1) % (N : Int) = _
    rw [Int.emod_add_emod]
    push_cast
    ring_nf

lemma decomp_reverse (stem base : List Char) (sep : Char) (ds : List Char)
    (h : stem = base ++ ['_', sep] ++ ds) :
    stem.reverse = ds.reverse ++ sep :: '_' :: base.reverse := by
  subst h; simp

lemma isEmpty_false_of_ne_nil {α : Type} {l : List α} (h : l ≠ []) :
    l.isEmpty = false := by
  simp [List.isEmpty_iff, h]

lemma try2_complete (stem base : List Char) (sep : Char) (d1 d2 : Char)
    (h : versionStemDecomp stem base sep [d1, d2]) :
    try2 stem = some (base, [d1, d2]) := by
  obtain ⟨hs, hsep, hb, hdig, -⟩ := h
  have hr : stem.reverse = d2 :: d1 :: sep :: '_' :: base.reverse := by
    simpa using decomp_reverse stem base sep [d1, d2] hs
  have h1 : d1.isDigit := hdig d1 (by simp)
  have h2 : d2.isDigit := hdig d2 (by simp)
  have hb' : base.reverse.isEmpty = false :=
    isEmpty_false_of_ne_nil (by simpa using hb)
  unfold try2
  rw [hr]
  rcases hsep with h | h <;> subst h <;> simp [h1, h2, hb']

lemma try3_complete (stem base : List Char) (sep : Char) (d1 d2 d3 : Char)
    (h : versionStemDecomp stem base sep [d1, d2, d3]) :
    try3 stem = some (base, [d1, d2, d3]) := by
  obtain ⟨hs, hsep, hb, hdig, -⟩ := h
  have hr : stem.reverse = d3 :: d2 :: d1 :: sep :: '_' :: base.reverse := by
    simpa using decomp_reverse stem base sep [d1, d2, d3] hs
  have h1 : d1.isDigit := hdig d1 (by simp)
  have h2 : d2.isDigit := hdig d2 (by simp)
  have h3 : d3.isDigit := hdig d3 (by simp)
  have hb' : base.reverse.isEmpty = false :=
    isEmpty_false_of_ne_nil (by simpa using hb)
  unfold try3
  rw [hr]
  rcases hsep with h | h <;> subst h <;> simp [h1, h2, h3, hb']

lemma try2_none_of_decomp3 (stem base : List Char) (sep : Char) (d1 d2 d3 : Char)
    (h : versionStemDecomp stem base sep [d1, d2, d3]) :
    try2 stem = none := by
  obtain ⟨hs, hsep, -, -, -⟩ := h
  have hr : stem.reverse = d3 :: d2 :: d1 :: sep :: '_' :: base.reverse := by
    simpa using decomp_reverse stem base sep [d1, d2, d3] hs
  have hv : (sep == '_') = false := by
    rcases hsep with h | h <;> subst h <;> decide
  unfold try2
  rw [hr]
  simp [hv]

lemma try2_sound (stem base ds : List Char) (h : try2 stem = some (base, ds)) :
    ∃ sep, versionStemDecomp stem base sep ds ∧ ds.length = 2 := by
  unfold try2 at h
  rcases hr : stem.reverse with - | ⟨a, - | ⟨b, - | ⟨v, - | ⟨u, base'⟩⟩⟩⟩ <;>
    rw [hr] at h <;> simp at h
  obtain ⟨⟨⟨⟨⟨ha, hbdig⟩, hu⟩, hv⟩, hbe⟩, hbase, hds⟩ := h
  subst hu
  subst hbase
  subst hds
  have hst : stem = base'.reverse ++ ['_', v] ++ [b, a] := by
    have h2 := congrArg List.reverse hr
    simpa using h2
  refine ⟨v, ⟨hst, hv, by simpa using hbe, ?_, Or.inl rfl⟩, rfl⟩
  intro x hx
  simp only [List.mem_cons, List.mem_singleton, List.not_mem_nil, or_false] at hx
  rcases hx with rfl | rfl
  · exact hbdig
  · exact ha

lemma try3_sound (stem base ds : List Char) (h : try3 stem = some (base, ds)) :
    ∃ sep, versionStemDecomp stem base sep ds ∧ ds.length = 3 := by
  unfold try3 at h
  rcases hr : stem.reverse with - | ⟨a, - | ⟨b, - | ⟨c, - | ⟨v, - | ⟨u, base'⟩⟩⟩⟩⟩ <;>
    rw [hr] at h <;> simp at h
  obtain ⟨⟨⟨⟨⟨⟨ha, hbdig⟩, hcdig⟩, hu⟩, hv⟩, hbe⟩, hbase, hds⟩ := h
  subst hu
  subst hbase
  subst hds
  have hst : stem = base'.reverse ++ ['_', v] ++ [c, b, a] := by
    have h2 := congrArg List.reverse hr
    simpa using h2
  refine ⟨v, ⟨hst, hv, by simpa using hbe, ?_, Or.inr rfl⟩, rfl⟩
  intro x hx
  simp only [List.mem_cons, List.mem_singleton, List.not_mem_nil, or_false] at hx
  rcases hx with rfl | rfl | rfl
  · exact hcdig
  · exact hbdig
  · exact ha

lemma matchVersion_sound (stem base ds : List Char)
    (h : matchVersion stem = some (base, ds)) :
    ∃ sep, versionStemDecomp stem base sep ds := by
  unfold matchVersion at h
  rcases h2 : try2 stem with - | r
  · rw [h2] at h
    exact (try3_sound stem base ds h).imp fun _ hh => hh.1
  · rw [h2] at h
    injection h with h
    rw [h] at h2
    exact (try2_sound stem base ds h2).imp fun _ hh => hh.1

lemma matchVersion_complete (stem base : List Char) (sep : Char) (ds : List Char)
    (h : versionStemDecomp stem base sep ds) :
    matchVersion stem = some (base, ds) := by
  have hlen := h.2.2.2.2
  rcases hlen with h2 | h3
  · rcases ds with - | ⟨d1, ds⟩
    · simp at h2
    rcases ds with - | ⟨d2, ds⟩
    · simp at h2
    have hnil : ds = [] := by simpa using h2
    subst hnil
    unfold matchVersion
    rw [try2_complete stem base sep d1 d2 h]
  · rcases ds with - | ⟨d1, ds⟩
    · simp at h3
    rcases ds with - | ⟨d2, ds⟩
    · simp at h3
    rcases ds with - | ⟨d3, ds⟩
    · simp at h3
    have hnil : ds = [] := by simpa using h3
    subst hnil
    unfold matchVersion
    rw [try2_none_of_decomp3 stem base sep d1 d2 d3 h,
      try3_complete stem base sep d1 d2 d3 h]

-- ==========================================================================
-- Claim theorems
-- ==========================================================================

/-- Claim C1, counterexample: on `items = [10, 20]` with nothing selected
and direction `+1`, `_cycle_layer` selects `items[0]` (the code's
"Nothing selected, select first/last" branch picks `all_layers[0]`
directly), whereas the claimed rule `i := 0, select items[(i + 1) mod 2]`
would select `items[1]`; the two disagree. -/
theorem C1_counterexample :
    cycleLayer [10, 20] [] 1 = LayerCycleResult.select 10 ∧
    cycleLayerClaimed [10, 20] [] 1 = LayerCycleResult.select 20 ∧
    cycleLayer [10, 20] [] 1 ≠ cycleLayerClaimed [10, 20] [] 1 := by
  decide

/-- Claim C1, amended: over a non-empty collection, when the host-reported
selection is present at position `i` the cycler requests
`items[(i + d) mod N]` and the mod result is non-negative (and below `N`);
when nothing is selected it requests `items[0]` for `d > 0` and
`items[N-1]` otherwise, without adding `d`; when a selection exists but is
not in `items` it requests `items[0]` regardless of direction. -/
theorem C1_amended : ∀ (L sel : List Nat) (d : Int) (hL : L ≠ []),
    (sel = [] → 0 < d → cycleLayer L sel d = .select (L.head hL)) ∧
    (sel = [] → ¬ 0 < d → cycleLayer L sel d = .select (L.getLast hL)) ∧
    (∀ c sel', sel = c :: sel' →
      (∀ i, L.findIdx? (· == c) = some i →
        cycleLayer L sel d =
          .select (L.getD (cycleStep (L.length : Int) d (i : Int)).toNat (L.head hL)) ∧
        0 ≤ cycleStep (L.length : Int) d (i : Int) ∧
        cycleStep (L.length : Int) d (i : Int) < (L.length : Int)) ∧
      (L.findIdx? (· == c) = none → cycleLayer L sel d = .select (L.head hL))) := by
  intro L sel d hL
  cases L with
  | nil => exact absurd rfl hL
  | cons a rest =>
    refine ⟨?_, ?_, ?_⟩
    · rintro rfl hd
      simp [cycleLayer, hd]
    · rintro rfl hd
      simp [cycleLayer, hd]
    · rintro c sel' rfl
      have hn : ((a :: rest).length : Int) ≠ 0 := by
        simp only [List.length_cons]
        omega
      have hp : (0 : Int) < ((a :: rest).length : Int) := by
        simp only [List.length_cons]
        omega
      constructor
      · intro i hfind
        refine ⟨?_, Int.emod_nonneg _ hn, Int.emod_lt_of_pos _ hp⟩
        simp [cycleLayer, hfind]
      · intro hfind
        simp [cycleLayer, hfind]

/-- Claim C1, amended, witness at a concrete input: `items = [5, 6, 7]`,
selection `6` at index 1, direction `+1` selects `7`. -/
theorem C1_amended_witness : cycleLayer [5, 6, 7] [6] 1 = LayerCycleResult.select 7 := by
  have h := (C1_amended [5, 6, 7] [6] 1 (by decide)).2.2 6 [] rfl
  have h2 := (h.1 1 (by decide)).1
  exact h2.trans (by decide)

/-- Claim C2: in the no-override (auto-detect) case the shared
target-determination head classifies the insertion target as mask exactly
when the selected node has a parent exposing a `mask_effects` collection
with the node as a member, and then the parent becomes the node receiving
the insertion; in every other case it inserts into the content of the
selected node itself; explicit "content"/"mask" overrides ignore the
parent entirely. -/
theorem C2_autodetect : ∀ ctx : EffectContext,
    ((∃ p, determineEffectTarget .auto ctx = .insert true p) ↔
      ∃ p, ctx.parent = some p ∧ ctx.parentHasMaskEffects = true ∧
        ctx.selected ∈ ctx.parentMaskEffects) ∧
    (∀ p, ctx.parent = some p → ctx.parentHasMaskEffects = true →
      ctx.selected ∈ ctx.parentMaskEffects →
      determineEffectTarget .auto ctx = .insert true p) ∧
    ((¬ ∃ p, ctx.parent = some p ∧ ctx.parentHasMaskEffects = true ∧
        ctx.selected ∈ ctx.parentMaskEffects) →
      determineEffectTarget .auto ctx = .insert false ctx.selected) ∧
    determineEffectTarget .content ctx = .insert false ctx.selected ∧
    (∀ ctx' : EffectContext, ctx.selected = ctx'.selected →
      ctx.selectedSupportsMask = ctx'.selectedSupportsMask →
      ctx.selectedHasMask = ctx'.selectedHasMask →
      determineEffectTarget .content ctx = determineEffectTarget .content ctx' ∧
      determineEffectTarget .mask ctx = determineEffectTarget .mask ctx') := by
  rintro ⟨s, sm, hm, par, phe, pme⟩
  refine ⟨?_, ?_, ?_, rfl, ?_⟩
  · cases par with
    | none => simp [determineEffectTarget]
    | some p =>
      cases phe with
      | false => simp [determineEffectTarget]
      | true =>
        by_cases hmem : s ∈ pme
        · simp [determineEffectTarget, hmem]
        · simp [determineEffectTarget, hmem]
  · intro p hp hphe hmem
    cases par with
    | none => cases hp
    | some q =>
      injection hp with hq
      subst hq
      subst hphe
      simp only at hmem
      simp [determineEffectTarget, hmem]
  · intro hno
    cases par with
    | none => simp [determineEffectTarget]
    | some p =>
      cases phe with
      | false => simp [determineEffectTarget]
      | true =>
        by_cases hmem : s ∈ pme
        · exact absurd ⟨p, rfl, rfl, hmem⟩ hno
        · simp [determineEffectTarget, hmem]
  · rintro ⟨s2, sm2, hm2, par2, phe2, pme2⟩ hs hsm hhm
    simp only at hs hsm hhm
    subst hs
    subst hsm
    subst hhm
    exact ⟨rfl, rfl⟩

/-- Claim C2, witness: a node that is a member of its parent's mask
effects is auto-classified as mask with the parent as target. -/
theorem C2_autodetect_witness :
    determineEffectTarget TargetOverride.auto ⟨4, true, true, some 9, true, [3, 4]⟩ =
      EffectAction.insert true 9 := by
  have h := C2_autodetect ⟨4, true, true, some 9, true, [3, 4]⟩
  exact h.2.1 9 rfl rfl (by decide)

/-- Claim C3: the shared wrap-around index step satisfies the closure
property (stepping forward N times from any index in [0, N) returns to
it) and the inverse property (one step forward then one step backward
returns to the start). -/
theorem C3_wraparound : ∀ (N : Nat) (i : Int), 1 ≤ N → 0 ≤ i → i < (N : Int) →
    (cycleStep (N : Int) 1)^[N] i = i ∧
    cycleStep (N : Int) (-1) (cycleStep (N : Int) 1 i) = i := by
  intro N i _ h0 h1
  constructor
  · rw [cycleStep_iterate N i h0 h1 N]
    calc (i + (N : Int)) % (N : Int)
        = (i + (N : Int) * 1) % (N : Int) := by ring_nf
      _ = i % (N : Int) := Int.add_mul_emod_self_left i (N : Int) 1
      _ = i := Int.emod_eq_of_lt h0 h1
  · show ((i + 1) % (N : Int) + (-1)) % (N : Int) = i
    rw [Int.emod_add_emod]
    have : i + 1 + (-1) = i := by ring
    rw [this]
    exact Int.emod_eq_of_lt h0 h1

/-- Claim C3, witness at N = 3, i = 1. -/
theorem C3_wraparound_witness :
    (cycleStep ((3 : Nat) : Int) 1)^[3] 1 = 1 ∧
    cycleStep ((3 : Nat) : Int) (-1) (cycleStep ((3 : Nat) : Int) 1 1) = 1 :=
  C3_wraparound 3 1 (by decide) (by decide) (by decide)

/-- Claim C4: when the fetched collection is empty, both cyclers leave all
state unchanged (the texture-set cursor keeps its value, no selection
request is issued) and report the nothing-to-cycle condition, in either
direction. -/
theorem C4_empty_cycle :
    (∀ (h : TSHost) (c d : Int), h.sets = [] →
      textureSetCycle h c d = ⟨c, none, TSMsg.noTextureSets⟩) ∧
    (∀ (sel : List Nat) (d : Int), cycleLayer [] sel d = LayerCycleResult.noLayers) := by
  constructor
  · intro h c d hs
    simp [textureSetCycle, hs]
  · intro sel d
    rfl

/-- Claim C4, witness: empty texture-set list with a stale cursor, and an
empty layer list with a selected node, in both directions. -/
theorem C4_empty_cycle_witness :
    textureSetCycle ⟨[], some 0⟩ 5 (-1) = ⟨5, none, TSMsg.noTextureSets⟩ ∧
    cycleLayer [] [7] 1 = LayerCycleResult.noLayers :=
  ⟨C4_empty_cycle.1 ⟨[], some 0⟩ 5 (-1) rfl, C4_empty_cycle.2 [7] 1⟩

/-- Claim C5: forcing the "mask" override on a selected node that lacks a
`has_mask` attribute or whose `has_mask()` is false makes every
effect-insertion helper report the precondition failure and perform no
mutation. -/
theorem C5_forced_mask_precond : ∀ ctx : EffectContext,
    ctx.selectedSupportsMask = false ∨ ctx.selectedHasMask = false →
    determineEffectTarget .mask ctx = .precondFail ∧
    (determineEffectTarget .mask ctx).mutates = false := by
  intro ctx h
  have hc : (!ctx.selectedSupportsMask || !ctx.selectedHasMask) = true := by
    rcases h with h | h <;> simp [h]
  constructor
  · simp [determineEffectTarget, hc]
  · simp [determineEffectTarget, hc, EffectAction.mutates]

/-- Claim C5, witness: a node that supports masks but has none. -/
theorem C5_forced_mask_precond_witness :
    determineEffectTarget TargetOverride.mask ⟨2, true, false, none, false, []⟩ =
      EffectAction.precondFail ∧
    (determineEffectTarget TargetOverride.mask ⟨2, true, false, none, false, []⟩).mutates
      = false :=
  C5_forced_mask_precond ⟨2, true, false, none, false, []⟩ (Or.inr rfl)

/-- Claim C6: from any prior overlay state (message displayed, fading, or
hidden), `show_message` replaces the text, resets opacity to fully
opaque, shows the widget, cancels any pending auto-hide timer and
in-flight fade, and arms a fresh timer for the full new duration; the
result does not depend on the prior state, so the newest message always
wins and nothing is queued. -/
theorem C6_show_message_resets : ∀ (st : OverlayState) (t : String) (d : Nat),
    show_message st t d =
      { text := t, opacity := 1, visible := true, hideTimer := some d, fading := false } :=
  fun _ _ _ => rfl

/-- Claim C7, counterexample: when the config file exists but is
unreadable, `load_config` returns the default table but does not persist
it (the write happens only in the file-absent branch). -/
theorem C7_counterexample :
    (load_config FileState.unreadable).1 = DEFAULT_CONFIG ∧
    (load_config FileState.unreadable).2 ≠ true :=
  ⟨rfl, by decide⟩

/-- Claim C7, amended: `load_config` returns the built-in default table
when the file is absent or unreadable, but writes it to disk only when
the file is absent; a readable file is returned as-is with no write. -/
theorem C7_amended :
    load_config FileState.absent = (DEFAULT_CONFIG, true) ∧
    load_config FileState.unreadable = (DEFAULT_CONFIG, false) ∧
    ∀ c, load_config (FileState.readable c) = (c, false) :=
  ⟨rfl, rfl, fun _ => rfl⟩

/-- Claim C8, counterexample: a readable persisted file with an empty
hotkeys table is adopted verbatim, so `get_hotkey` returns the empty
string for the recognized action `cycle_layer_up` even though the
built-in default binds it to `Ctrl+W`; the mapping is not total after
such a load. -/
theorem C8_counterexample :
    "cycle_layer_up" ∈ recognizedActions ∧
    get_hotkey DEFAULT_CONFIG "cycle_layer_up" = "Ctrl+W" ∧
    get_hotkey (load_config (FileState.readable ⟨some []⟩)).1 "cycle_layer_up" = "" := by
  refine ⟨by decide, rfl, rfl⟩

/-- Claim C8, amended: the mapping is total over the recognized actions
only when `load_config` fell back to the built-in defaults (file absent
or unreadable); a readable persisted file is used verbatim, with no
per-action default fallback. -/
theorem C8_amended :
    (∀ a, a ∈ recognizedActions →
      get_hotkey (load_config FileState.absent).1 a ≠ "" ∧
      get_hotkey (load_config FileState.unreadable).1 a ≠ "") ∧
    (∀ c, (load_config (FileState.readable c)).1 = c) := by
  constructor
  · intro a ha
    fin_cases ha <;> exact ⟨by decide, by decide⟩
  · intro c
    rfl

/-- Claim C8, amended, witness at the recognized action
`toggle_mask_content`. -/
theorem C8_amended_witness :
    get_hotkey (load_config FileState.absent).1 "toggle_mask_content" ≠ "" ∧
    get_hotkey (load_config FileState.unreadable).1 "toggle_mask_content" ≠ "" :=
  C8_amended.1 "toggle_mask_content" (by decide)

/-- Claim C9: the texture-set cursor's next value depends only on its
previous value, the direction and the freshly fetched collection length
(in particular not on which stack the host reports active), and after a
cycle over a non-empty collection of length N it equals
`(previous + direction) mod N` and lies in [0, N), even when the previous
value was outside that range. -/
theorem C9_cursor_invariant :
    (∀ (h h' : TSHost) (c d : Int), h.sets.length = h'.sets.length →
      (textureSetCycle h c d).cursor = (textureSetCycle h' c d).cursor) ∧
    (∀ (h : TSHost) (c d : Int), h.sets ≠ [] →
      (textureSetCycle h c d).cursor = cycleStep (h.sets.length : Int) d c ∧
      0 ≤ (textureSetCycle h c d).cursor ∧
      (textureSetCycle h c d).cursor < (h.sets.length : Int)) := by
  constructor
  · intro h h' c d hl
    have he : h.sets.isEmpty = h'.sets.isEmpty := by
      rcases hs : h.sets with - | ⟨x, xs⟩ <;> rcases hs' : h'.sets with - | ⟨y, ys⟩ <;>
        simp_all
    by_cases hb : h.sets.isEmpty
    · simp [textureSetCycle, hb, ← he]
    · have hb' : h'.sets.isEmpty = false := by
        rw [← he]
        exact Bool.eq_false_iff.mpr hb
      have hb2 : h.sets.isEmpty = false := Bool.eq_false_iff.mpr hb
      simp [textureSetCycle, hb2, hb', hl]
  · intro h c d hne
    have hb : h.sets.isEmpty = false := isEmpty_false_of_ne_nil hne
    have hpos : 0 < h.sets.length := List.length_pos.mpr hne
    have hn : ((h.sets.length : Nat) : Int) ≠ 0 := by
      exact_mod_cast Nat.pos_iff_ne_zero.mp hpos
    have hp : (0 : Int) < (h.sets.length : Int) := by
      exact_mod_cast hpos
    refine ⟨by simp [textureSetCycle, hb], ?_, ?_⟩
    · simp only [textureSetCycle, hb, Bool.false_eq_true, if_false]
      exact Int.emod_nonneg _ hn
    · simp only [textureSetCycle, hb, Bool.false_eq_true, if_false]
      exact Int.emod_lt_of_pos _ hp

/-- Claim C9, witness: a stale cursor 7 over a shrunken two-element
collection steps to `(7 + 1) mod 2 = 0`, independent of the reported
active stack. -/
theorem C9_cursor_invariant_witness :
    (textureSetCycle ⟨["A", "B"], none⟩ 7 1).cursor =
      (textureSetCycle ⟨["C", "D"], some 1⟩ 7 1).cursor ∧
    0 ≤ (textureSetCycle ⟨["A", "B"], none⟩ 7 1).cursor ∧
    (textureSetCycle ⟨["A", "B"], none⟩ 7 1).cursor <
      (((["A", "B"] : List String).length : Nat) : Int) :=
  ⟨C9_cursor_invariant.1 ⟨["A", "B"], none⟩ ⟨["C", "D"], some 1⟩ 7 1 rfl,
   (C9_cursor_invariant.2 ⟨["A", "B"], none⟩ 7 1 (by simp)).2.1,
   (C9_cursor_invariant.2 ⟨["A", "B"], none⟩ 7 1 (by simp)).2.2⟩

/-- Claim C10: `_save_incremental` calls `save_as` exactly when the stem
decomposes as a non-empty base, `_v` (either case) and a 2- or 3-digit
version group, and the incremented target name is not already on disk; a
successful save never targets an existing file, and the target is the
same base and extension with the version incremented by one and
zero-padded to the original digit count. -/
theorem C10_save_incremental : ∀ (stem ext : List Char) (existing : List (List Char)),
    ((∃ t, saveIncremental stem ext existing = some t) ↔
      ∃ base sep ds, versionStemDecomp stem base sep ds ∧
        incrementedName base ds ext ∉ existing) ∧
    (∀ t, saveIncremental stem ext existing = some t →
      t ∉ existing ∧
      ∃ base sep ds, versionStemDecomp stem base sep ds ∧
        t = incrementedName base ds ext) := by
  intro stem ext existing
  constructor
  · constructor
    · rintro ⟨t, ht⟩
      unfold saveIncremental at ht
      rcases hm : matchVersion stem with - | ⟨base, ds⟩
      · rw [hm] at ht
        cases ht
      · rw [hm] at ht
        by_cases he : incrementedName base ds ext ∈ existing
        · simp [he] at ht
        · obtain ⟨sep, hd⟩ := matchVersion_sound stem base ds hm
          exact ⟨base, sep, ds, hd, he⟩
    · rintro ⟨base, sep, ds, hd, he⟩
      refine ⟨incrementedName base ds ext, ?_⟩
      unfold saveIncremental
      rw [matchVersion_complete stem base sep ds hd]
      simp [he]
  · intro t ht
    unfold saveIncremental at ht
    rcases hm : matchVersion stem with - | ⟨base, ds⟩
    · rw [hm] at ht
      cases ht
    · rw [hm] at ht
      by_cases he : incrementedName base ds ext ∈ existing
      · simp [he] at ht
      · simp only [he, if_false] at ht
        injection ht with ht
        obtain ⟨sep, hd⟩ := matchVersion_sound stem base ds hm
        subst ht
        exact ⟨he, base, sep, ds, hd, rfl⟩

/-- Claim C10, witness: stem `shot_v09` with extension `.spp` and an empty
directory saves as `shot_v10.spp`. -/
theorem C10_save_incremental_witness :
    ∃ t, saveIncremental
        ['s', 'h', 'o', 't', '_', 'v', '0', '9'] ['.', 's', 'p', 'p'] [] = some t ∧
      t ∉ ([] : List (List Char)) := by
  have h := C10_save_incremental
    ['s', 'h', 'o', 't', '_', 'v', '0', '9'] ['.', 's', 'p', 'p'] []
  obtain ⟨t, ht⟩ := h.1.mpr
    ⟨['s', 'h', 'o', 't'], 'v', ['0', '9'],
      ⟨by decide, Or.inl rfl, by decide, by decide, Or.inl rfl⟩, by decide⟩
  exact ⟨t, ht, (h.2 t ht).1⟩
